import Mathlib

/-!
Verification development for the Rhombus_AI repository.

The frontend components (`TextProcessing.tsx`, `DataProcessing.tsx`) are
embedded as Lean functions below.  The host JavaScript pattern engine
(`RegExp`, `String.prototype.match`, `String.prototype.replace`) is modelled
by a small derivative-based regex engine together with the global-flag scan
(`lastIndex` advancing, empty matches advancing by one) and the
`GetSubstitution` dollar-escape expansion of the replacement string, as the
ECMAScript specification defines them.  Backend code (`regex_processor`) is
not part of the sources; where a claim depends on it, the definition is
modelled from the specification and marked as such.
-/

/-- Model of the host pattern engine's regex fragment: literal characters,
the any-character class `.`, concatenation, alternation and Kleene star
(`+` is encoded as `seq a (star a)` by the pattern parser). -/
inductive Regex where
  | fail : Regex
  | epsilon : Regex
  | char (c : Char) : Regex
  | dot : Regex
  | seq (a b : Regex) : Regex
  | alt (a b : Regex) : Regex
  | star (a : Regex) : Regex
deriving DecidableEq, Repr

/-- Does the regex accept the empty string? -/
def nullable : Regex → Bool
  | .fail => false
  | .epsilon => true
  | .char _ => false
  | .dot => false
  | .seq a b => nullable a && nullable b
  | .alt a b => nullable a || nullable b
  | .star _ => true

/-- Brzozowski derivative of a regex by one character. -/
def rderiv : Regex → Char → Regex
  | .fail, _ => .fail
  | .epsilon, _ => .fail
  | .char c, d => if c = d then .epsilon else .fail
  | .dot, _ => .epsilon
  | .seq a b, d =>
    if nullable a then .alt (.seq (rderiv a d) b) (rderiv b d)
    else .seq (rderiv a d) b
  | .alt a b, d => .alt (rderiv a d) (rderiv b d)
  | .star a, d => .seq (rderiv a d) (.star a)

/-- Exact (whole-list) match of a regex against a character list. -/
def rmatch (r : Regex) : List Char → Bool
  | [] => nullable r
  | c :: s => rmatch (rderiv r c) s

/-- Length of the longest prefix of `l` accepted by `r`, or `none`. -/
def matchPrefixLen (r : Regex) (l : List Char) : Option Nat :=
  ((List.range (l.length + 1)).reverse).find? (fun n => rmatch r (l.take n))

/-- First match of `r` in `l` at a position `≥ i`: the pair of its start
position and its length.  Models the search performed by a global-flag
`RegExp` from `lastIndex = i`. -/
def firstMatchFrom (r : Regex) (l : List Char) (i : Nat) : Option (Nat × Nat) :=
  (List.range' i (l.length + 1 - i)).findSome?
    (fun j => (matchPrefixLen r (l.drop j)).map (fun len => (j, len)))

/-- Fuelled scan collecting the successive non-overlapping matches of a
global-flag regex: after a match of length `len` at `j`, the scan resumes at
`j + max len 1` (an empty match advances `lastIndex` by one). -/
def scanMatches (r : Regex) (l : List Char) : Nat → Nat → List (Nat × Nat)
  | 0, _ => []
  | fuel + 1, i =>
    match firstMatchFrom r l i with
    | none => []
    | some (j, len) => (j, len) :: scanMatches r l fuel (j + max len 1)

/-- All non-overlapping matches of `r` in `l`, as `(start, length)` pairs,
in left-to-right order.  `l.length + 1` fuel suffices: every step advances
the scan position by at least one and no match starts past `l.length`. -/
def findMatches (r : Regex) (l : List Char) : List (Nat × Nat) :=
  scanMatches r l (l.length + 1) 0

/-- The slice `l[a..b)`. -/
def sliceList (l : List Char) (a b : Nat) : List Char :=
  (l.take b).drop a

/-- Splice replacement text into `l` at the given (sorted, non-overlapping)
matches, the text for a match of length `len` at `j` being `expand j len`. -/
def spliceFrom (l : List Char) (expand : Nat → Nat → List Char) :
    Nat → List (Nat × Nat) → List Char
  | pos, [] => l.drop pos
  | pos, (j, len) :: rest =>
    sliceList l pos j ++ expand j len ++ spliceFrom l expand (j + len) rest

/-- The backquote character, for the replacement escape that inserts the
portion of the input before the match. -/
def backquoteChar : Char := Char.ofNat 96

/-- The single-quote character, for the replacement escape that inserts the
portion of the input after the match. -/
def singleQuoteChar : Char := Char.ofNat 39

/-- `GetSubstitution` from the ECMAScript specification, for a regex with no
capture groups: in the replacement string, `$$` inserts a dollar sign, `$&`
the matched text, a dollar followed by a backquote the text before the
match, a dollar followed by a single quote the text after the match, and
any other sequence stands for itself. -/
def expandRepl (l : List Char) (j len : Nat) : List Char → List Char
  | [] => []
  | c :: rest =>
    if c = '$' then
      match rest with
      | [] => [c]
      | d :: rest2 =>
        if d = '$' then '$' :: expandRepl l j len rest2
        else if d = '&' then sliceList l j (j + len) ++ expandRepl l j len rest2
        else if d = backquoteChar then l.take j ++ expandRepl l j len rest2
        else if d = singleQuoteChar then l.drop (j + len) ++ expandRepl l j len rest2
        else c :: expandRepl l j len (d :: rest2)
    else c :: expandRepl l j len rest

/-- `inputText.replace(regex, replacement)` with a global-flag regex, as the
host engine performs it (dollar escapes in the replacement interpreted). -/
def jsReplaceList (r : Regex) (l : List Char) (rep : List Char) : List Char :=
  spliceFrom l (fun j len => expandRepl l j len rep) 0 (findMatches r l)

/-- The replacement operation as the specification words it: every
non-overlapping match replaced by the replacement string itself, taken
literally.  Kept separate from `jsReplaceList` to compare the two. -/
def replaceLiteralList (r : Regex) (l : List Char) (rep : List Char) : List Char :=
  spliceFrom l (fun _ _ => rep) 0 (findMatches r l)

/-- Result record built by the raw-text processing path
(`TextProcessing.tsx`, `handleProcessText`). -/
structure ProcessResults where
  matches_count : Nat
  affected_rows : Nat
  total_rows : Nat
  processed_data : String
deriving DecidableEq, Repr

/-- `handleProcessText` from `TextProcessing.tsx` (lines 80-92): counts the
global matches of the pattern in the input text, replaces them, and reports
the raw-text result metrics (`total_rows = 1`, `affected_rows` from the
match count). -/
def handleProcessText (regex : Regex) (inputText : String) (replacement : String) :
    ProcessResults :=
  let ms := findMatches regex inputText.data
  { matches_count := ms.length
  , affected_rows := if ms.length > 0 then 1 else 0
  , total_rows := 1
  , processed_data := String.mk (jsReplaceList regex inputText.data replacement.data) }

/-- The characters the pattern language treats specially.  Modelled from the
spec: the backend's escaping of literal values (`regex_processor/services.py`,
not among the sources) escapes "every metacharacter in `literal_value`"
before embedding it in `pattern_text`. -/
def metaChars : List Char :=
  ['\\', '.', '+', '*', '?', '^', '$', '|', '(', ')', '[', ']', '/',
   Char.ofNat 123, Char.ofNat 125]

/-- Escape one character of a literal value. -/
def escapeChar (c : Char) : List Char :=
  if c ∈ metaChars then ['\\', c] else [c]

/-- Modelled from the spec: the backend escape of a whole literal value
(every metacharacter prefixed with a backslash). -/
def reEscape (v : String) : String :=
  String.mk (v.data.map escapeChar).flatten

/-- Parse a pattern string (accumulator holds the atoms read so far, in
reverse).  The fragment covers escaped characters, the `.` class, the `+`
and `*` postfix operators, and literal characters. -/
def parseRev (acc : List Regex) : List Char → Option (List Regex)
  | [] => some acc
  | c :: rest =>
    if c = '\\' then
      match rest with
      | [] => none
      | d :: rest2 => parseRev (Regex.char d :: acc) rest2
    else if c = '.' then parseRev (Regex.dot :: acc) rest
    else if c = '+' then
      match acc with
      | [] => none
      | a :: as => parseRev (Regex.seq a (Regex.star a) :: as) rest
    else if c = '*' then
      match acc with
      | [] => none
      | a :: as => parseRev (Regex.star a :: as) rest
    else parseRev (Regex.char c :: acc) rest

/-- Concatenation of a list of regexes. -/
def seqAll (l : List Regex) : Regex :=
  l.foldr Regex.seq Regex.epsilon

/-- Compile a pattern string to a regex (the host engine's `new RegExp`). -/
def parsePattern (p : String) : Option Regex :=
  (parseRev [] p.data).map (fun acc => seqAll acc.reverse)

/-- Does the pattern string match the candidate string exactly
(compile, then whole-string match)? -/
def patternAccepts (p : String) (s : String) : Bool :=
  match parsePattern p with
  | none => false
  | some r => rmatch r s.data

/-- Does `pat` occur in `l` starting at position `i`? -/
def subOccursAt (pat l : List Char) (i : Nat) : Bool :=
  pat.isPrefixOf (l.drop i)

/-- Does `pat` occur anywhere in `l`? -/
def containsSub (l pat : List Char) : Bool :=
  (List.range (l.length + 1)).any (fun i => subOccursAt pat l i)

/-- Substring test on strings. -/
def strContains (s pat : String) : Bool :=
  containsSub s.data pat.data

/-- Index of the first occurrence of `pat` in `l`, if any. -/
def findSubIdx (l pat : List Char) : Option Nat :=
  (List.range (l.length + 1)).find? (fun i => subOccursAt pat l i)

/-- Remove the first occurrence of `pat` from `s`. -/
def removeFirstSub (s pat : String) : String :=
  match findSubIdx s.data pat.data with
  | none => s
  | some i => String.mk (s.data.take i ++ s.data.drop (i + pat.data.length))

/-- Drop leading and trailing whitespace (the host `trim`). -/
def trimList (l : List Char) : List Char :=
  ((l.dropWhile Char.isWhitespace).reverse.dropWhile Char.isWhitespace).reverse

/-- `trim` on strings. -/
def trimStr (s : String) : String := String.mk (trimList s.data)

/-- `toLowerCase` on strings. -/
def lowerStr (s : String) : String := String.mk (s.data.map Char.toLower)

/-- Fuelled splitting of a character list into whitespace-separated words. -/
def wordsOfAux : Nat → List Char → List String
  | 0, _ => []
  | fuel + 1, l =>
    match l.dropWhile Char.isWhitespace with
    | [] => []
    | c :: rest =>
      String.mk ((c :: rest).takeWhile (fun d => !(Char.isWhitespace d))) ::
        wordsOfAux fuel ((c :: rest).dropWhile (fun d => !(Char.isWhitespace d)))

/-- The whitespace-separated words of a character list. -/
def wordsOf (l : List Char) : List String := wordsOfAux (l.length + 1) l

/-- Join words with single spaces. -/
def joinWords (ws : List String) : String :=
  String.mk ((ws.map String.data).intersperse [' ']).flatten

/-- Parse a non-empty all-digit character list as a natural number. -/
def parseNatList (l : List Char) : Option Nat :=
  if l = [] then none
  else if l.all Char.isDigit then
    some (l.foldl (fun acc c => acc * 10 + (c.toNat - 48)) 0)
  else none

/-- Parse an optionally negated decimal integer. -/
def parseIntList : List Char → Option Int
  | '-' :: rest => (parseNatList rest).map (fun n => -(n : Int))
  | l => (parseNatList l).map (fun n => (n : Int))

/-- Decimal digits of a natural number (with fuel). -/
def natToDigitsAux : Nat → Nat → List Char
  | 0, _ => []
  | fuel + 1, n =>
    if n < 10 then [Char.ofNat (48 + n)]
    else natToDigitsAux fuel (n / 10) ++ [Char.ofNat (48 + n % 10)]

/-- Decimal rendering of an integer. -/
def intToText : Int → String
  | .ofNat m => String.mk (natToDigitsAux (m + 1) m)
  | .negSucc m => String.mk ('-' :: natToDigitsAux (m + 2) (m + 1))

/-- Literal versus category intent of a description. -/
inductive IntentKind where
  | literal : IntentKind
  | category : IntentKind
deriving DecidableEq, Repr

/-- Modelled from the spec: the classified intent record
(`kind = Literal` iff an exact-value cue was recognized). -/
structure ClassifiedIntent where
  kind : IntentKind
  literal_value : Option String
  category_hint : Option String
deriving DecidableEq, Repr

/-- Modelled from the spec: the Pattern Synonym Library, a static table from
semantic categories to canonical patterns. -/
def categoryNouns : List (String × String) :=
  [ ("email", "[A-Za-z0-9._%+-]+@[A-Za-z0-9.-]+\\.[A-Za-z]\x7b2,\x7d")
  , ("phone", "\\d\x7b3\x7d-?\\d\x7b3\x7d-?\\d\x7b4\x7d")
  , ("url", "https?://[^\\s]+")
  , ("date", "\\d\x7b4\x7d-\\d\x7b2\x7d-\\d\x7b2\x7d")
  , ("currency", "\\$\\d+(\\.\\d\x7b2\x7d)?")
  , ("zip", "\\d\x7b5\x7d(-\\d\x7b4\x7d)?")
  , ("ip", "\\d\x7b1,3\x7d(\\.\\d\x7b1,3\x7d)\x7b3\x7d") ]

/-- Modelled from the spec: the literal-intent cue phrases of the Intent
Classifier. -/
def literalCues : List String :=
  ["find exactly", "match only", "exactly", "specific", "only"]

/-- Modelled from the spec: cue-independent leading words stripped from a
candidate literal value. -/
def leadingWords : List String :=
  ["find", "get", "match", "show"]

/-- Classify a normalized description as a category intent, with the first
recognized category noun as hint, or `general`. -/
def categoryFor (n : String) : ClassifiedIntent :=
  match categoryNouns.find? (fun kv => strContains n kv.1) with
  | some kv => ⟨.category, none, some kv.1⟩
  | none => ⟨.category, none, some "general"⟩

/-- Modelled from the spec: the Intent Classifier.  Normalize, scan for a
literal-intent cue; when one is found, strip it and the leading words and
classify the non-empty remainder without category nouns as a literal value;
otherwise fall back to a category intent. -/
def classify (description : String) : ClassifiedIntent :=
  let n := lowerStr (trimStr description)
  match literalCues.find? (fun cue => strContains n cue) with
  | some cue =>
    let ws := wordsOf (removeFirstSub n cue).data
    let candidate := joinWords (ws.dropWhile (fun w => w ∈ leadingWords))
    if candidate != "" && categoryNouns.all (fun kv => !(strContains candidate kv.1)) then
      ⟨.literal, some candidate, none⟩
    else categoryFor n
  | none => categoryFor n

/-- Library lookup by category hint. -/
def lookupLibrary (hint : String) : Option String :=
  (categoryNouns.find? (fun kv => kv.1 = hint)).map (fun kv => kv.2)

/-- The last-resort generic pattern (one or more non-whitespace characters). -/
def genericFallback : String := "\\S+"

/-- Modelled from the spec: the Pattern Synthesizer's local path — an
escaped literal for literal intents, otherwise a library pattern for the
category hint, otherwise the generic fallback.  (The optional external AI
call degrades to exactly this path.) -/
def synthesizePattern (description : String) : String :=
  let intent := classify description
  match intent.kind, intent.literal_value with
  | .literal, some v => reEscape v
  | _, _ =>
    match lookupLibrary (intent.category_hint.getD "general") with
    | some p => p
    | none => genericFallback

/-- Modelled from the spec: the `convert-to-regex` operation — rejects an
empty (after trimming) description with `Description is required`, and
otherwise synthesizes a pattern. -/
def convertToRegex (description : String) : Except String String :=
  if trimStr description = "" then Except.error "Description is required"
  else Except.ok (synthesizePattern description)

/-- A cell value of a record: a string or a number. -/
inductive JValue where
  | str (s : String) : JValue
  | num (n : Int) : JValue
deriving DecidableEq, Repr

/-- A row keyed by column name. -/
abbrev JRecord := List (String × JValue)

/-- The operators of a parsed predicate. -/
inductive QueryOp where
  | gt : QueryOp
  | lt : QueryOp
  | containsOp : QueryOp
  | startsWithOp : QueryOp
  | endsWithOp : QueryOp
  | eqOp : QueryOp
deriving DecidableEq, Repr

/-- Modelled from the spec: a parsed predicate (column, operator, value). -/
structure Predicate where
  column : String
  op : QueryOp
  value : JValue
deriving DecidableEq, Repr

/-- Numeric coercion of a cell value (`none` when parsing fails). -/
def toNumber : JValue → Option Int
  | .num n => some n
  | .str s => parseIntList s.data

/-- String coercion of a cell value. -/
def toText : JValue → String
  | .str s => s
  | .num n => intToText n

/-- Modelled from the spec: one cell against one predicate.  `GreaterThan`
and `LessThan` parse the cell as a number and fail (skip) when parsing
fails; containment and affix tests are case-insensitive on string-coerced
values. -/
def evalCell (op : QueryOp) (cell : JValue) (value : JValue) : Bool :=
  match op with
  | .gt =>
    match toNumber cell, toNumber value with
    | some a, some b => b < a
    | _, _ => false
  | .lt =>
    match toNumber cell, toNumber value with
    | some a, some b => a < b
    | _, _ => false
  | .containsOp => containsSub (lowerStr (toText cell)).data (lowerStr (toText value)).data
  | .startsWithOp => (lowerStr (toText value)).data.isPrefixOf (lowerStr (toText cell)).data
  | .endsWithOp => (lowerStr (toText value)).data.isSuffixOf (lowerStr (toText cell)).data
  | .eqOp => toText cell == toText value

/-- Modelled from the spec: the Predicate Evaluator — keep the rows whose
cell in the predicate's column satisfies the predicate, preserving order. -/
def evalPredicate (p : Predicate) (records : List JRecord) : List JRecord :=
  records.filter (fun r =>
    match r.lookup p.column with
    | some cell => evalCell p.op cell p.value
    | none => false)

/-- Operator cue phrases in search order (comparison before containment and
affix cues, equality last). -/
def opCues : List (String × QueryOp) :=
  [ (">", .gt), ("<", .lt), ("contains", .containsOp)
  , ("starts with", .startsWithOp), ("ends with", .endsWithOp)
  , ("is", .eqOp), ("equals", .eqOp) ]

/-- Query-noise words stripped from the column span of a query. -/
def noiseWords : List String := ["find", "show", "get"]

/-- Split `s` around the first occurrence of `pat`. -/
def splitFirstSub (s pat : String) : Option (String × String) :=
  match findSubIdx s.data pat.data with
  | none => none
  | some i =>
    some (String.mk (s.data.take i), String.mk (s.data.drop (i + pat.data.length)))

/-- Column resolution: exact match first, then case-insensitive.  (The
bounded edit-distance fallback of the Fuzzy Column Resolver is not needed
by any claim and is left out of the model.) -/
def resolveColumn (name : String) (columns : List String) : Option String :=
  match columns.find? (fun c => c = name) with
  | some c => some c
  | none => columns.find? (fun c => lowerStr c = lowerStr name)

/-- Modelled from the spec: the Query Parser — find the first operator cue,
split the query around it, strip noise words from the left span to get the
column reference, resolve it, and for `>`/`<` require a numeric right
span. -/
def parseQuery (query : String) (columns : List String) : Except String Predicate :=
  match opCues.findSome?
      (fun cue => (splitFirstSub query cue.1).map (fun lr => (cue.2, lr.1, lr.2))) with
  | none => Except.error "UnparsableQuery"
  | some (op, left, right) =>
    let ws := (wordsOf (lowerStr left).data).dropWhile (fun w => w ∈ noiseWords)
    match resolveColumn (joinWords ws) columns with
    | none => Except.error "UnresolvedColumn"
    | some col =>
      match op with
      | .gt | .lt =>
        match parseIntList (trimList right.data) with
        | some n => Except.ok ⟨col, op, .num n⟩
        | none => Except.error "UnparsableQuery"
      | _ => Except.ok ⟨col, op, .str (trimStr right)⟩

/-- Modelled from the spec: the `natural-language-query` operation — parse
the query against the columns, then evaluate the predicate over the data. -/
def naturalLanguageQuery (query : String) (data : List JRecord)
    (columns : List String) : Except String (List JRecord) :=
  (parseQuery query columns).map (fun p => evalPredicate p data)

/-- A row of an uploaded file, keyed by column name. -/
abbrev Row := List (String × String)

/-- An uploaded file as `DataProcessing.tsx` stores it. -/
structure FileData where
  name : String
  data : List Row
  columns : List String
  rowCount : Nat
deriving DecidableEq, Repr

/-- Append a column name if it is not present yet (`Set.add` on an
insertion-ordered set). -/
def addUniqueCol (acc : List String) (c : String) : List String :=
  if c ∈ acc then acc else acc ++ [c]

/-- The merged column list: all files' columns, first occurrence order
(`allColumns` in `mergeAllFilesData`). -/
def collectColumns (files : List FileData) : List String :=
  files.foldl (fun acc f => f.columns.foldl addUniqueCol acc) []

/-- A merged row initialized with the empty string in every column. -/
def initRow (cols : List String) : Row :=
  cols.map (fun c => (c, ""))

/-- Assignment `mergedRow[k] = v` on a JavaScript object that already has
the key `k`: the value changes in place, the key order does not. -/
def setValue (row : Row) (k v : String) : Row :=
  row.map (fun kv => if kv.1 = k then (k, v) else kv)

/-- Build one merged row: initialize every merged column with the empty
string, then copy the row's values for the keys among the merged columns
(`mergeAllFilesData`, inner loop). -/
def fillRow (cols : List String) (row : Row) : Row :=
  row.foldl (fun acc kv => if kv.1 ∈ cols then setValue acc kv.1 kv.2 else acc)
    (initRow cols)

/-- `mergeAllFilesData` from `DataProcessing.tsx` (lines 97-134): no files
gives no rows, a single file's data is returned as is, and several files
are merged row by row over the union of their columns. -/
def mergeAllFilesData (files : List FileData) : List Row :=
  match files with
  | [] => []
  | [f] => f.data
  | _ => files.foldl (fun acc f => acc ++ f.data.map (fillRow (collectColumns files))) []

/-- Result of `analyzeColumnCompatibility`.  The score is `none` when the
host computation is the float `NaN` (division of zero by zero). -/
structure Compatibility where
  common : List String
  onlyInExisting : List String
  onlyInNew : List String
  isFullMatch : Bool
  hasCommon : Bool
  compatibilityScore : Option ℚ
deriving DecidableEq, Repr

/-- `analyzeColumnCompatibility` from `DataProcessing.tsx` (lines 78-94):
common and one-sided column lists by membership, full match when both
one-sided lists are empty, and a score of `|common|` over the larger of the
two distinct-column counts (`NaN`, modelled `none`, when both are zero). -/
def analyzeColumnCompatibility (existingColumns newColumns : List String) :
    Compatibility :=
  let existingSize := existingColumns.dedup.length
  let newSize := newColumns.dedup.length
  let common := existingColumns.filter (fun c => c ∈ newColumns)
  let onlyInExisting := existingColumns.filter (fun c => c ∉ newColumns)
  let onlyInNew := newColumns.filter (fun c => c ∉ existingColumns)
  { common := common
  , onlyInExisting := onlyInExisting
  , onlyInNew := onlyInNew
  , isFullMatch := onlyInExisting.length == 0 && onlyInNew.length == 0
  , hasCommon := decide (0 < common.length)
  , compatibilityScore :=
      if max existingSize newSize = 0 then none
      else some ((common.length : ℚ) / (max existingSize newSize : ℚ)) }

/-- A JavaScript number as the results view computes with it: a finite
rational, positive infinity, or `NaN`. -/
inductive JsNumber where
  | nan : JsNumber
  | inf : JsNumber
  | val (q : ℚ) : JsNumber
deriving DecidableEq, Repr

/-- JavaScript division of non-negative operands: `0/0` is `NaN`, a
positive numerator over zero is `Infinity`. -/
def jsDiv (a b : ℚ) : JsNumber :=
  if b = 0 then (if a = 0 then .nan else .inf) else .val (a / b)

/-- Multiplication by a non-negative constant (`NaN` and `Infinity`
propagate). -/
def jsMulNat (x : JsNumber) (n : Nat) : JsNumber :=
  match x with
  | .val q => .val (q * n)
  | other => other

/-- `Math.round` (`NaN` and `Infinity` propagate). -/
def jsRound : JsNumber → JsNumber
  | .nan => .nan
  | .inf => .inf
  | .val q => .val ((⌊q + 1 / 2⌋ : ℤ) : ℚ)

/-- The success-rate computation of the results view
(`DataProcessing.tsx`, line 564):
`Math.round(((affected_rows ?? 0) / (total_rows ?? 1)) * 100)`, where `??`
replaces only a missing (`null`/`undefined`) field. -/
def successRate (affected_rows total_rows : Option Nat) : JsNumber :=
  jsRound (jsMulNat (jsDiv ((affected_rows.getD 0 : Nat) : ℚ)
    ((total_rows.getD 1 : Nat) : ℚ)) 100)

/-- Claim C5: every result of the raw-text application path satisfies
`affected_rows ≤ total_rows`; there `total_rows = 1` and `affected_rows`
is `0` or `1`. -/
theorem handleProcessText_affected_le_total (r : Regex) (s rep : String) :
    (handleProcessText r s rep).total_rows = 1 ∧
    (handleProcessText r s rep).affected_rows ≤ (handleProcessText r s rep).total_rows ∧
    ((handleProcessText r s rep).affected_rows = 0 ∨
      (handleProcessText r s rep).affected_rows = 1) := by
  unfold handleProcessText
  by_cases h : (findMatches r s.data).length > 0 <;> simp [h]

theorem spliceFrom_congr (l : List Char) (e1 e2 : Nat → Nat → List Char)
    (pos : Nat) (ms : List (Nat × Nat))
    (h : ∀ p ∈ ms, e1 p.1 p.2 = e2 p.1 p.2) :
    spliceFrom l e1 pos ms = spliceFrom l e2 pos ms := by
  induction ms generalizing pos with
  | nil => rfl
  | cons hd tl ih =>
    obtain ⟨j, len⟩ := hd
    simp only [spliceFrom]
    rw [h ⟨j, len⟩ (List.mem_cons_self _ _),
      ih _ (fun p hp => h p (List.mem_cons_of_mem _ hp))]

theorem expandRepl_no_dollar (l : List Char) (j len : Nat) :
    ∀ rep : List Char, '$' ∉ rep → expandRepl l j len rep = rep
  | [], _ => rfl
  | c :: rest, h => by
    have hc : ¬(c = '$') := fun hc => h (List.mem_cons.mpr (Or.inl hc.symm))
    rw [expandRepl.eq_def]
    simp only [if_neg hc]
    rw [expandRepl_no_dollar l j len rest (fun hm => h (List.mem_cons_of_mem _ hm))]

/-- Claim C1 (amended): for every pattern, input text, and replacement
string containing no dollar sign, the raw-text path returns
`processed_data` equal to the input with every non-overlapping match
replaced by the replacement string, and `matches_count` equal to the number
of non-overlapping matches.  (For replacements containing `$`, the host
engine interprets substitution escapes such as `$&`, so the replacement is
not inserted literally.) -/
theorem handleProcessText_replaces_matches (r : Regex) (s rep : String)
    (h : '$' ∉ rep.data) :
    (handleProcessText r s rep).processed_data =
      String.mk (replaceLiteralList r s.data rep.data) ∧
    (handleProcessText r s rep).matches_count = (findMatches r s.data).length := by
  constructor
  · show String.mk (jsReplaceList r s.data rep.data) = _
    unfold jsReplaceList replaceLiteralList
    exact congrArg String.mk (spliceFrom_congr _ _ _ _ _
      (fun p _ => expandRepl_no_dollar s.data p.1 p.2 rep.data h))
  · rfl

theorem handleProcessText_replaces_matches_inst :
    (handleProcessText (Regex.char 'a') "banana" "X").processed_data =
      String.mk (replaceLiteralList (Regex.char 'a') "banana".data "X".data) ∧
    (handleProcessText (Regex.char 'a') "banana" "X").matches_count =
      (findMatches (Regex.char 'a') "banana".data).length :=
  handleProcessText_replaces_matches (Regex.char 'a') "banana" "X" (by decide)

/-- Claim C1 (counterexample): the pattern `a` is obtainable from
`convert-to-regex` and compiles to a regex; applying it to the text `a`
with the replacement string `$&$&` produces `aa`, not the text with the
match replaced by the replacement string literally (which would be
`$&$&`). -/
theorem handleProcessText_dollar_escape_diverges :
    convertToRegex "find exactly a" = Except.ok "a" ∧
    parsePattern "a" = some (Regex.seq (Regex.char 'a') Regex.epsilon) ∧
    (handleProcessText (Regex.seq (Regex.char 'a') Regex.epsilon) "a" "$&$&").processed_data
      = "aa" ∧
    String.mk (replaceLiteralList (Regex.seq (Regex.char 'a') Regex.epsilon)
      "a".data "$&$&".data) = "$&$&" ∧
    ("aa" : String) ≠ "$&$&" := by
  exact ⟨rfl, rfl, rfl, rfl, by decide⟩

theorem firstMatchFrom_zero_eq_none_iff (r : Regex) (l : List Char) :
    firstMatchFrom r l 0 = none ↔
      ∀ j ≤ l.length, matchPrefixLen r (l.drop j) = none := by
  unfold firstMatchFrom
  rw [List.findSome?_eq_none_iff]
  constructor
  · intro h j hj
    have hm : j ∈ List.range' 0 (l.length + 1 - 0) := by
      rw [List.mem_range'_1]; omega
    have := h j hm
    simpa using this
  · intro h j hj
    rw [List.mem_range'_1] at hj
    simp [h j (by omega)]

theorem findMatches_eq_nil_iff (r : Regex) (l : List Char) :
    findMatches r l = [] ↔
      ∀ j ≤ l.length, matchPrefixLen r (l.drop j) = none := by
  rw [← firstMatchFrom_zero_eq_none_iff]
  unfold findMatches
  rw [scanMatches.eq_def]
  cases hfm : firstMatchFrom r l 0 with
  | none => simp [hfm]
  | some p => simp [hfm]

/-- Claim C2 (amended): in the raw-text path, a row counts as affected iff
at least one match of the pattern was found in the text —
`affected_rows = 1` exactly when some position of the input carries a
match, equivalently when `matches_count` is positive — regardless of
whether the replacement changed the text. -/
theorem handleProcessText_affected_rows_counts_matches (r : Regex) (s rep : String) :
    ((handleProcessText r s rep).affected_rows = 1 ↔
      ∃ j, j ≤ s.data.length ∧ matchPrefixLen r (s.data.drop j) ≠ none) ∧
    (handleProcessText r s rep).affected_rows =
      if 0 < (handleProcessText r s rep).matches_count then 1 else 0 := by
  have key := findMatches_eq_nil_iff r s.data
  constructor
  · show (if (findMatches r s.data).length > 0 then 1 else 0) = 1 ↔ _
    by_cases hm : findMatches r s.data = []
    · rw [if_neg (by simp [hm])]
      constructor
      · intro h; exact absurd h (by norm_num)
      · rintro ⟨j, hj, hne⟩
        exact absurd (key.mp hm j hj) hne
    · rw [if_pos (by simpa [List.length_pos] using hm)]
      constructor
      · intro _
        by_contra hex
        push_neg at hex
        exact hm (key.mpr (fun j hj => hex j hj))
      · intro _; rfl
  · show (if (findMatches r s.data).length > 0 then 1 else 0) =
      if 0 < (findMatches r s.data).length then 1 else 0
    rfl

/-- Claim C2 (counterexample): applying the pattern `a` to the text `a`
with replacement `a` leaves the text unchanged, yet the code reports
`affected_rows = 1` (it counts matches, not changed cells), where the
claim requires `affected_rows = 0`. -/
theorem handleProcessText_affected_without_change :
    convertToRegex "find exactly a" = Except.ok "a" ∧
    (handleProcessText (Regex.seq (Regex.char 'a') Regex.epsilon) "a" "a").processed_data
      = "a" ∧
    (handleProcessText (Regex.seq (Regex.char 'a') Regex.epsilon) "a" "a").matches_count
      = 1 ∧
    (handleProcessText (Regex.seq (Regex.char 'a') Regex.epsilon) "a" "a").affected_rows
      = 1 :=
  ⟨rfl, rfl, rfl, rfl⟩

/-- Claim C3: applying a pattern that matches at no position of the input
yields `matches_count = 0`, `affected_rows = 0`, and `processed_data`
equal to the input text. -/
theorem handleProcessText_no_match (r : Regex) (s rep : String)
    (h : ∀ j ≤ s.data.length, matchPrefixLen r (s.data.drop j) = none) :
    (handleProcessText r s rep).matches_count = 0 ∧
    (handleProcessText r s rep).affected_rows = 0 ∧
    (handleProcessText r s rep).processed_data = s := by
  have hnil : findMatches r s.data = [] := (findMatches_eq_nil_iff r s.data).mpr h
  refine ⟨?_, ?_, ?_⟩
  · show (findMatches r s.data).length = 0
    simp [hnil]
  · show (if (findMatches r s.data).length > 0 then 1 else 0) = 0
    simp [hnil]
  · show String.mk (jsReplaceList r s.data rep.data) = s
    unfold jsReplaceList
    rw [hnil]
    show String.mk (s.data.drop 0) = s
    rw [List.drop_zero]

theorem handleProcessText_no_match_inst :
    (handleProcessText (Regex.char 'b') "aa" "X").matches_count = 0 ∧
    (handleProcessText (Regex.char 'b') "aa" "X").affected_rows = 0 ∧
    (handleProcessText (Regex.char 'b') "aa" "X").processed_data = "aa" :=
  handleProcessText_no_match (Regex.char 'b') "aa" "X" (by decide)

theorem rmatch_fail (s : List Char) : rmatch Regex.fail s = false := by
  induction s with
  | nil => rfl
  | cons c s ih => simpa [rmatch, rderiv] using ih

theorem rmatch_seq_fail (b : Regex) (s : List Char) :
    rmatch (Regex.seq Regex.fail b) s = false := by
  induction s with
  | nil => rfl
  | cons c s ih => simpa [rmatch, rderiv, nullable] using ih

theorem rmatch_alt (a b : Regex) (s : List Char) :
    rmatch (Regex.alt a b) s = (rmatch a s || rmatch b s) := by
  induction s generalizing a b with
  | nil => rfl
  | cons c s ih => simpa [rmatch, rderiv] using ih (rderiv a c) (rderiv b c)

theorem rmatch_seq_epsilon (b : Regex) (s : List Char) :
    rmatch (Regex.seq Regex.epsilon b) s = rmatch b s := by
  cases s with
  | nil => simp [rmatch, nullable]
  | cons c s =>
    show rmatch (rderiv (Regex.seq Regex.epsilon b) c) s = rmatch (rderiv b c) s
    have : rderiv (Regex.seq Regex.epsilon b) c =
        Regex.alt (Regex.seq Regex.fail b) (rderiv b c) := by
      simp [rderiv, nullable]
    rw [this, rmatch_alt, rmatch_seq_fail]
    simp

theorem rmatch_charSeq (l : List Char) :
    ∀ s, rmatch (seqAll (l.map Regex.char)) s = true ↔ s = l := by
  induction l with
  | nil =>
    intro s
    cases s with
    | nil => simp [seqAll, rmatch, nullable]
    | cons c s =>
      show rmatch (rderiv Regex.epsilon c) s = true ↔ _
      simp [rderiv, rmatch_fail]
  | cons c l' ih =>
    intro s
    cases s with
    | nil => simp [seqAll, rmatch, nullable]
    | cons d s' =>
      show rmatch (rderiv (Regex.seq (Regex.char c) (seqAll (l'.map Regex.char))) d) s'
        = true ↔ _
      have hd : rderiv (Regex.seq (Regex.char c) (seqAll (l'.map Regex.char))) d =
          Regex.seq (if c = d then Regex.epsilon else Regex.fail)
            (seqAll (l'.map Regex.char)) := by
        simp [rderiv, nullable]
      rw [hd]
      by_cases hcd : c = d
      · rw [if_pos hcd, rmatch_seq_epsilon, ih s']
        subst hcd
        simp
      · rw [if_neg hcd, rmatch_seq_fail]
        simp only [Bool.false_eq_true, false_iff, List.cons_eq_cons, not_and]
        exact fun h => absurd h.symm hcd

theorem parseRev_cons_escaped (acc : List Regex) (d : Char) (rest : List Char) :
    parseRev acc ('\\' :: d :: rest) = parseRev (Regex.char d :: acc) rest := rfl

theorem parseRev_cons_plain (acc : List Regex) (c : Char) (rest : List Char)
    (h1 : ¬(c = '\\')) (h2 : ¬(c = '.')) (h3 : ¬(c = '+')) (h4 : ¬(c = '*')) :
    parseRev acc (c :: rest) = parseRev (Regex.char c :: acc) rest := by
  rw [parseRev.eq_def]
  simp only [if_neg h1, if_neg h2, if_neg h3, if_neg h4]

theorem parseRev_escape (l : List Char) :
    ∀ acc, parseRev acc (l.map escapeChar).flatten =
      some ((l.map Regex.char).reverse ++ acc) := by
  induction l with
  | nil => intro acc; rfl
  | cons c l' ih =>
    intro acc
    by_cases hm : c ∈ metaChars
    · have he : ((c :: l').map escapeChar).flatten =
          '\\' :: c :: (l'.map escapeChar).flatten := by
        simp [escapeChar, hm]
      rw [he, parseRev_cons_escaped, ih (Regex.char c :: acc)]
      simp
    · have he : ((c :: l').map escapeChar).flatten =
          c :: (l'.map escapeChar).flatten := by
        simp [escapeChar, hm]
      rw [he, parseRev_cons_plain acc c _
        (fun h => hm (by rw [h]; decide)) (fun h => hm (by rw [h]; decide))
        (fun h => hm (by rw [h]; decide)) (fun h => hm (by rw [h]; decide))]
      rw [ih (Regex.char c :: acc)]
      simp

theorem parsePattern_escape (v : String) :
    parsePattern (reEscape v) = some (seqAll (v.data.map Regex.char)) := by
  unfold parsePattern reEscape
  rw [show (String.mk (v.data.map escapeChar).flatten).data =
    (v.data.map escapeChar).flatten from rfl]
  rw [parseRev_escape v.data []]
  simp

theorem string_data_inj (s v : String) : s.data = v.data ↔ s = v :=
  ⟨fun h => by cases s; cases v; exact congrArg String.mk h, fun h => h ▸ rfl⟩

/-- Claim C4: the pattern synthesized for a literal value — the value with
every metacharacter escaped — compiles, and matches exactly the literal
value: no other string, in particular none differing only under
metacharacter interpretation, is accepted. -/
theorem escaped_literal_matches_exactly (v s : String) :
    patternAccepts (reEscape v) s = true ↔ s = v := by
  unfold patternAccepts
  rw [parsePattern_escape]
  show rmatch (seqAll (v.data.map Regex.char)) s.data = true ↔ s = v
  rw [rmatch_charSeq, string_data_inj]

/-- Claim C6: `convert-to-regex` fails with `Description is required`
exactly when the description is empty after normalization, this is its only
error, and every other description yields a pattern. -/
theorem convertToRegex_fails_only_on_empty (d : String) :
    (convertToRegex d = Except.error "Description is required" ↔ trimStr d = "") ∧
    (∀ e, convertToRegex d = Except.error e → e = "Description is required") ∧
    (trimStr d ≠ "" → ∃ p, convertToRegex d = Except.ok p) := by
  unfold convertToRegex
  by_cases h : trimStr d = "" <;> simp [h]

theorem convertToRegex_fails_only_on_empty_inst :
    convertToRegex "   " = Except.error "Description is required" ∧
    ∃ p, convertToRegex "find exactly a" = Except.ok p :=
  ⟨(convertToRegex_fails_only_on_empty "   ").1.mpr rfl,
   (convertToRegex_fails_only_on_empty "find exactly a").2.2 (by decide)⟩

/-- Claim C7: the query `find age > 25` over the records
`[⦃age:25⦄, ⦃age:30⦄, ⦃age:"x"⦄]` returns exactly the row with age 30: the
boundary row is excluded and the row whose age fails numeric parsing is
skipped without an error. -/
theorem age_query_scenario :
    naturalLanguageQuery "find age > 25"
      [[("age", JValue.num 25)], [("age", JValue.num 30)], [("age", JValue.str "x")]]
      ["age"] = Except.ok [[("age", JValue.num 30)]] := rfl

theorem setValue_keys (row : Row) (k v : String) :
    (setValue row k v).map Prod.fst = row.map Prod.fst := by
  unfold setValue
  rw [List.map_map]
  apply List.map_congr_left
  intro kv _
  by_cases h : kv.1 = k <;> simp [h]

theorem lookup_setValue (l : Row) (k v c : String) :
    (setValue l k v).lookup c =
      (l.lookup c).map (fun old => if c = k then v else old) := by
  induction l with
  | nil => rfl
  | cons p t ih =>
    obtain ⟨a, b⟩ := p
    unfold setValue at ih ⊢
    by_cases hak : a = k
    · subst hak
      simp only [List.map_cons, if_pos rfl]
      by_cases hca : c = a
      · subst hca
        simp [List.lookup_cons]
      · have hbeq : (c == a) = false := beq_false_of_ne hca
        simp [List.lookup_cons, hbeq, ih]
    · simp only [List.map_cons, if_neg hak]
      by_cases hca : c = a
      · subst hca
        simp [List.lookup_cons, if_neg hak]
      · have hbeq : (c == a) = false := beq_false_of_ne hca
        simp [List.lookup_cons, hbeq, ih]

theorem lookup_of_not_mem_keys (l : Row) (c : String)
    (h : c ∉ l.map Prod.fst) : l.lookup c = none := by
  rw [List.lookup_eq_none_iff]
  intro p hp
  rw [bne_iff_ne]
  intro hc
  exact h (by rw [hc]; exact List.mem_map_of_mem Prod.fst hp)

theorem lookup_isSome_of_mem_keys (l : Row) (c : String)
    (h : c ∈ l.map Prod.fst) : (l.lookup c).isSome := by
  rw [List.lookup_isSome_iff]
  obtain ⟨p, hp, hfst⟩ := List.mem_map.mp h
  exact ⟨p, hp, beq_iff_eq.mpr hfst.symm⟩

theorem initRow_lookup (cols : List String) (c : String) (hc : c ∈ cols) :
    (initRow cols).lookup c = some "" := by
  induction cols with
  | nil => cases hc
  | cons d t ih =>
    unfold initRow at ih ⊢
    by_cases hcd : c = d
    · subst hcd
      simp [List.lookup_cons]
    · have hbeq : (c == d) = false := beq_false_of_ne hcd
      rcases List.mem_cons.mp hc with h | h
      · exact absurd h hcd
      · simp [List.lookup_cons, hbeq, ih h]

theorem foldl_setValue_keys (cols : List String) (row : Row) :
    ∀ acc : Row,
      (row.foldl (fun acc kv =>
        if kv.1 ∈ cols then setValue acc kv.1 kv.2 else acc) acc).map Prod.fst =
      acc.map Prod.fst := by
  induction row with
  | nil => intro acc; rfl
  | cons kv t ih =>
    intro acc
    show (t.foldl _ (if kv.1 ∈ cols then setValue acc kv.1 kv.2 else acc)).map Prod.fst = _
    rw [ih]
    by_cases h : kv.1 ∈ cols <;> simp [h, setValue_keys]

theorem fillRow_keys (cols : List String) (row : Row) :
    (fillRow cols row).map Prod.fst = cols := by
  show (row.foldl _ (initRow cols)).map Prod.fst = cols
  rw [foldl_setValue_keys]
  unfold initRow
  rw [List.map_map, show (Prod.fst ∘ fun c : String => (c, "")) = id from rfl,
    List.map_id]

theorem foldl_setValue_lookup (cols : List String) (row : Row)
    (hnd : (row.map Prod.fst).Nodup) :
    ∀ acc : Row, acc.map Prod.fst = cols → ∀ c ∈ cols,
      (row.foldl (fun acc kv =>
        if kv.1 ∈ cols then setValue acc kv.1 kv.2 else acc) acc).lookup c =
      (match row.lookup c with
       | some v => some v
       | none => acc.lookup c) := by
  induction row with
  | nil => intro acc _ c _; rfl
  | cons kv t ih =>
    obtain ⟨k, v0⟩ := kv
    intro acc hacc c hc
    have hnd' : (t.map Prod.fst).Nodup := (List.nodup_cons.mp hnd).2
    have hknot : k ∉ t.map Prod.fst := (List.nodup_cons.mp hnd).1
    have hacc' : (if k ∈ cols then setValue acc k v0 else acc).map Prod.fst = cols := by
      by_cases hk : k ∈ cols <;> simp [hk, setValue_keys, hacc]
    show (t.foldl _ (if k ∈ cols then setValue acc k v0 else acc)).lookup c = _
    rw [ih hnd' _ hacc' c hc]
    by_cases hck : c = k
    · have hbeq : (c == k) = true := beq_iff_eq.mpr hck
      have ht : t.lookup c = none := by
        apply lookup_of_not_mem_keys
        rw [hck]
        exact hknot
      have hl : ((k, v0) :: t).lookup c = some v0 := by
        simp [List.lookup_cons, hbeq]
      rw [ht, hl]
      show (if k ∈ cols then setValue acc k v0 else acc).lookup c = some v0
      have hkin : k ∈ cols := by rw [← hck]; exact hc
      rw [if_pos hkin, lookup_setValue]
      have hsome : (acc.lookup c).isSome :=
        lookup_isSome_of_mem_keys acc c (by rw [hacc]; exact hc)
      obtain ⟨w, hw⟩ := Option.isSome_iff_exists.mp hsome
      rw [hw]
      simp [hck]
    · have hbeq : (c == k) = false := beq_false_of_ne hck
      have hl : ((k, v0) :: t).lookup c = t.lookup c := by
        simp [List.lookup_cons, hbeq]
      rw [hl]
      have hacc2 : (if k ∈ cols then setValue acc k v0 else acc).lookup c =
          acc.lookup c := by
        by_cases hk : k ∈ cols
        · rw [if_pos hk, lookup_setValue]
          cases hal : acc.lookup c <;> simp [hck]
        · rw [if_neg hk]
      rw [hacc2]

theorem fillRow_lookup (cols : List String) (row : Row)
    (hnd : (row.map Prod.fst).Nodup) (c : String) (hc : c ∈ cols) :
    (fillRow cols row).lookup c = some ((row.lookup c).getD "") := by
  have init_keys : (initRow cols).map Prod.fst = cols := by
    unfold initRow
    rw [List.map_map, show (Prod.fst ∘ fun c : String => (c, "")) = id from rfl,
      List.map_id]
  have main := foldl_setValue_lookup cols row hnd (initRow cols) init_keys c hc
  show (row.foldl _ (initRow cols)).lookup c = _
  rw [main]
  cases hrow : row.lookup c with
  | some v => simp
  | none => simp [initRow_lookup cols c hc]

theorem foldl_append_rows (g : FileData → List Row) :
    ∀ (L : List FileData) (acc : List Row),
      L.foldl (fun a f => a ++ g f) acc = acc ++ (L.map g).flatten := by
  intro L
  induction L with
  | nil => intro acc; simp
  | cons f t ih =>
    intro acc
    show t.foldl _ (acc ++ g f) = _
    rw [ih (acc ++ g f)]
    simp

/-- Claim C8: merging a non-empty list of uploaded files concatenates the
files' rows in upload order (original order within each file), the output
length is the sum of the files' row counts, and — when at least two files
are merged — every output row is built over exactly the union of all
files' column names, holding the source row's value where present and the
empty string elsewhere. -/
theorem mergeAllFilesData_correct (files : List FileData)
    (hne : files ≠ [])
    (hnd : ∀ f ∈ files, ∀ row ∈ f.data, (row.map Prod.fst).Nodup) :
    (mergeAllFilesData files).length = (files.map (fun f => f.data.length)).sum ∧
    (2 ≤ files.length →
      mergeAllFilesData files =
        (files.map (fun f => f.data.map (fillRow (collectColumns files)))).flatten ∧
      (∀ r ∈ mergeAllFilesData files, r.map Prod.fst = collectColumns files) ∧
      (∀ f ∈ files, ∀ row ∈ f.data, ∀ c ∈ collectColumns files,
        (fillRow (collectColumns files) row).lookup c =
          some ((row.lookup c).getD ""))) := by
  match files with
  | [] => exact absurd rfl hne
  | [f] =>
    constructor
    · show f.data.length = f.data.length + 0
      simp
    · intro h2
      exact absurd h2 (by norm_num)
  | f1 :: f2 :: fs =>
    have heq : mergeAllFilesData (f1 :: f2 :: fs) =
        ((f1 :: f2 :: fs).map
          (fun f => f.data.map (fillRow (collectColumns (f1 :: f2 :: fs))))).flatten := by
      show (f1 :: f2 :: fs).foldl _ [] = _
      rw [foldl_append_rows]
      simp
    refine ⟨?_, fun _ => ⟨heq, ?_, ?_⟩⟩
    · rw [heq, List.length_flatten, List.map_map]
      congr 1
      apply List.map_congr_left
      intro f _
      simp [Function.comp]
    · intro r hr
      rw [heq] at hr
      obtain ⟨sub, hsub, hrsub⟩ := List.mem_flatten.mp hr
      obtain ⟨f, _, hfeq⟩ := List.mem_map.mp hsub
      subst hfeq
      obtain ⟨row, _, hreq⟩ := List.mem_map.mp hrsub
      subst hreq
      exact fillRow_keys _ row
    · intro f hf row hrow c hcol
      exact fillRow_lookup _ row (hnd f hf row hrow) c hcol

theorem mergeAllFilesData_correct_inst :
    (mergeAllFilesData
      [⟨"f1", [[("a", "1")]], ["a"], 1⟩, ⟨"f2", [[("b", "2")]], ["b"], 1⟩]).length =
    ([(⟨"f1", [[("a", "1")]], ["a"], 1⟩ : FileData),
      ⟨"f2", [[("b", "2")]], ["b"], 1⟩].map (fun f => f.data.length)).sum :=
  (mergeAllFilesData_correct _ (by decide) (by decide)).1

theorem isFullMatch_iff (l1 l2 : List String) :
    (analyzeColumnCompatibility l1 l2).isFullMatch = true ↔
      (∀ c ∈ l1, c ∈ l2) ∧ (∀ c ∈ l2, c ∈ l1) := by
  show ((l1.filter (fun c => c ∉ l2)).length == 0 &&
    (l2.filter (fun c => c ∉ l1)).length == 0) = true ↔ _
  rw [Bool.and_eq_true, beq_iff_eq, beq_iff_eq, List.length_eq_zero,
    List.length_eq_zero, List.filter_eq_nil_iff, List.filter_eq_nil_iff]
  simp

theorem length_filter_mem_eq_card_inter (l1 l2 : List String) (h1 : l1.Nodup) :
    (l1.filter (fun c => c ∈ l2)).length = (l1.toFinset ∩ l2.toFinset).card := by
  have hnd : (l1.filter (fun c => c ∈ l2)).Nodup := h1.filter _
  rw [← List.toFinset_card_of_nodup hnd]
  congr 1
  ext x
  simp [List.mem_filter]

/-- Claim C9 (amended): for duplicate-free column lists, at least one of
them non-empty, `isFullMatch` holds iff the lists carry the same set of
names, the score is a rational in `[0, 1]` equal to `1` iff `isFullMatch`,
and swapping the two lists changes neither `isFullMatch` nor the score.
(When both lists are empty the score is the float `NaN`, excluded here.) -/
theorem analyzeColumnCompatibility_correct (l1 l2 : List String)
    (h1 : l1.Nodup) (h2 : l2.Nodup) (hne : l1 ≠ [] ∨ l2 ≠ []) :
    ((analyzeColumnCompatibility l1 l2).isFullMatch = true ↔
      ∀ c, c ∈ l1 ↔ c ∈ l2) ∧
    (∃ q : ℚ, (analyzeColumnCompatibility l1 l2).compatibilityScore = some q ∧
      0 ≤ q ∧ q ≤ 1 ∧
      (q = 1 ↔ (analyzeColumnCompatibility l1 l2).isFullMatch = true)) ∧
    (analyzeColumnCompatibility l2 l1).isFullMatch =
      (analyzeColumnCompatibility l1 l2).isFullMatch ∧
    (analyzeColumnCompatibility l2 l1).compatibilityScore =
      (analyzeColumnCompatibility l1 l2).compatibilityScore := by
  have hd1 : l1.dedup = l1 := List.dedup_eq_self.mpr h1
  have hd2 : l2.dedup = l2 := List.dedup_eq_self.mpr h2
  have hsetiff : ((∀ c ∈ l1, c ∈ l2) ∧ (∀ c ∈ l2, c ∈ l1)) ↔
      (∀ c, c ∈ l1 ↔ c ∈ l2) :=
    ⟨fun ⟨a, b⟩ c => ⟨fun h => a c h, fun h => b c h⟩,
     fun h => ⟨fun c hc => (h c).mp hc, fun c hc => (h c).mpr hc⟩⟩
  have hdpos : 0 < max l1.dedup.length l2.dedup.length := by
    rw [hd1, hd2]
    rcases hne with h | h
    · exact lt_max_iff.mpr (Or.inl (List.length_pos.mpr h))
    · exact lt_max_iff.mpr (Or.inr (List.length_pos.mpr h))
  have hscore : (analyzeColumnCompatibility l1 l2).compatibilityScore =
      some (((l1.filter (fun c => c ∈ l2)).length : ℚ) /
        ((max l1.dedup.length l2.dedup.length : Nat) : ℚ)) := by
    show (if max l1.dedup.length l2.dedup.length = 0 then none else _) = _
    rw [if_neg (Nat.pos_iff_ne_zero.mp hdpos), Nat.cast_max]
  have hfle : (l1.filter (fun c => c ∈ l2)).length ≤ l1.length :=
    List.length_filter_le _ _
  refine ⟨(isFullMatch_iff l1 l2).trans hsetiff, ?_, ?_, ?_⟩
  · refine ⟨_, hscore, ?_, ?_, ?_⟩
    · positivity
    · rw [div_le_one (by exact_mod_cast hdpos)]
      have : (l1.filter (fun c => c ∈ l2)).length ≤
          max l1.dedup.length l2.dedup.length := by
        rw [hd1]
        exact le_trans hfle (le_max_left _ _)
      exact_mod_cast this
    · constructor
      · intro hq1
        rw [div_eq_one_iff_eq (by exact_mod_cast Nat.pos_iff_ne_zero.mp hdpos)] at hq1
        have heqn : (l1.filter (fun c => c ∈ l2)).length =
            max l1.dedup.length l2.dedup.length := by exact_mod_cast hq1
        rw [hd1, hd2] at heqn
        have hlen1 : (l1.filter (fun c => c ∈ l2)).length = l1.length := by
          have := le_max_left l1.length l2.length
          omega
        have hsub : ∀ c ∈ l1, c ∈ l2 := by
          have := List.filter_length_eq_length.mp hlen1
          simpa using this
        have hsubF : l1.toFinset ⊆ l2.toFinset := by
          intro x hx
          rw [List.mem_toFinset] at hx ⊢
          exact hsub x hx
        have hcard : l2.toFinset.card ≤ l1.toFinset.card := by
          rw [List.toFinset_card_of_nodup h1, List.toFinset_card_of_nodup h2]
          have := le_max_left l1.length l2.length
          omega
        have hFeq : l1.toFinset = l2.toFinset :=
          Finset.eq_of_subset_of_card_le hsubF hcard
        rw [isFullMatch_iff]
        refine ⟨hsub, fun c hc => ?_⟩
        have : c ∈ l1.toFinset := by rw [hFeq, List.mem_toFinset]; exact hc
        rwa [List.mem_toFinset] at this
      · intro hfm
        obtain ⟨hsub12, hsub21⟩ := (isFullMatch_iff l1 l2).mp hfm
        have hfeq : l1.filter (fun c => c ∈ l2) = l1 := by
          rw [List.filter_eq_self]
          intro a ha
          simpa using hsub12 a ha
        have hFeq : l1.toFinset = l2.toFinset := by
          ext x
          rw [List.mem_toFinset, List.mem_toFinset]
          exact ⟨fun h => hsub12 x h, fun h => hsub21 x h⟩
        have hlen : l2.length = l1.length := by
          rw [← List.toFinset_card_of_nodup h1, ← List.toFinset_card_of_nodup h2, hFeq]
        have hne1 : l1.length ≠ 0 := by
          rw [hd1, hd2] at hdpos
          omega
        rw [hfeq, hd1, hd2, hlen, Nat.max_self]
        rw [div_self (by exact_mod_cast hne1)]
  · rw [Bool.eq_iff_iff, isFullMatch_iff, isFullMatch_iff]
    tauto
  · have hscore' : (analyzeColumnCompatibility l2 l1).compatibilityScore =
        some (((l2.filter (fun c => c ∈ l1)).length : ℚ) /
          ((max l2.dedup.length l1.dedup.length : Nat) : ℚ)) := by
      show (if max l2.dedup.length l1.dedup.length = 0 then none else _) = _
      rw [if_neg (by rw [Nat.max_comm]; exact Nat.pos_iff_ne_zero.mp hdpos),
        Nat.cast_max]
    rw [hscore, hscore']
    have hcomm : (l2.filter (fun c => c ∈ l1)).length =
        (l1.filter (fun c => c ∈ l2)).length := by
      rw [length_filter_mem_eq_card_inter l2 l1 h2,
        length_filter_mem_eq_card_inter l1 l2 h1, Finset.inter_comm]
    rw [hcomm, Nat.max_comm]

theorem analyzeColumnCompatibility_correct_inst :
    (analyzeColumnCompatibility ["a"] ["a"]).isFullMatch = true :=
  ((analyzeColumnCompatibility_correct ["a"] ["a"] (by decide) (by decide)
    (Or.inl (by decide))).1).mpr (fun c => Iff.rfl)

/-- Claim C9 (counterexample): on the pair of empty column lists — both
duplicate-free — the code computes `isFullMatch = true` but a score of
`0 / 0`, the float `NaN`: the score does not lie in `[0, 1]` and is not
`1` despite the full match. -/
theorem analyzeColumnCompatibility_empty_nan :
    (analyzeColumnCompatibility [] []).isFullMatch = true ∧
    (analyzeColumnCompatibility [] []).compatibilityScore = none ∧
    ¬ ∃ q : ℚ, (analyzeColumnCompatibility [] []).compatibilityScore = some q ∧
      0 ≤ q ∧ q ≤ 1 := by
  refine ⟨rfl, rfl, ?_⟩
  rintro ⟨q, hq, -, -⟩
  rw [show (analyzeColumnCompatibility [] []).compatibilityScore = none from rfl] at hq
  exact Option.noConfusion hq

/-- Claim C10: for a response with a present `total_rows = 0` (e.g. an
empty dataset) the success-rate computation divides zero by zero and yields
`NaN` — the `??` guard replaces only a missing field, as the third
conjunct shows (`total_rows` absent falls back to `1` and gives `0`). -/
theorem successRate_nan_on_zero_total :
    successRate (some 0) (some 0) = JsNumber.nan ∧
    successRate none (some 0) = JsNumber.nan ∧
    successRate (some 0) none = JsNumber.val 0 := by
  refine ⟨rfl, rfl, ?_⟩
  show jsRound (jsMulNat (jsDiv ((0 : Nat) : ℚ) ((1 : Nat) : ℚ)) 100) = JsNumber.val 0
  unfold jsDiv
  rw [if_neg (by norm_num)]
  unfold jsMulNat jsRound
  norm_num
